import Mathlib

/-!
Verification of the DecentPaste core against its specification.

This file gives a shallow embedding, in Lean 4, of the parts of the
DecentPaste Rust sources that the specification's claims are about:

* `security/crypto.rs` — `encrypt_content` / `decrypt_content`
  (AES-256-GCM with a 12-byte nonce prepended to the ciphertext);
* `security/identity.rs` — `derive_shared_secret` (X25519 ECDH);
* `security/pairing.rs` — `PairingSession::is_expired`;
* `vault/storage.rs` — `read_vault` error classification;
* `state.rs` — `add_clipboard_entry`, `store_buffered_message`,
  `get_buffer_for_peer`;
* `clipboard/sync.rs` — `SyncManager::should_broadcast` / `cleanup_expired`;
* `commands.rs` — `set_clipboard`, `share_clipboard_content`;
* `network/swarm.rs` — the `BroadcastClipboard` command arm;
* `lib.rs` — the `NetworkEvent::PairingComplete` handler.

Bytes are modelled as `Nat` (each value `< 256` in well-formed data);
byte strings as `List Nat`.  Timestamps are integers (nanoseconds for
`chrono`/`Instant` values, so that sub-second precision of the source's
comparisons is preserved); where only non-negative ages matter, `Nat`
seconds are used and noted.  Randomness (nonces, fresh UUIDs) and
external collaborators (the OS clipboard, the Argon2id KDF, JSON
codecs) are passed in as explicit arguments, which is the standard way
to shallowly embed effectful code.  External cryptographic primitives
called by the sources (the `aes-gcm` and `x25519-dalek` crates) are
modelled by executable implementations of AES-256-GCM (FIPS 197 /
NIST SP 800-38D) and X25519 (RFC 7748) below.
-/

/-- The application error enum from `error.rs`, restricted to the
variants exercised by the embedded code (the snapshot's `commands.rs`
additionally uses an `InvalidInput` variant, which is included). -/
inductive DecentPasteError where
  | Network : String → DecentPasteError
  | Clipboard : String → DecentPasteError
  | Pairing : String → DecentPasteError
  | Encryption : String → DecentPasteError
  | Storage : String → DecentPasteError
  | ChannelSend : DecentPasteError
  | PeerNotFound : String → DecentPasteError
  | AlreadyPaired : String → DecentPasteError
  | InvalidPin : DecentPasteError
  | PairingTimeout : DecentPasteError
  | NotInitialized : DecentPasteError
  | InvalidInput : String → DecentPasteError
  deriving DecidableEq, Repr

/-! ## Byte-string helpers -/

/-- Pointwise XOR of two byte strings (length = the shorter one). -/
def xorBytes (a b : List Nat) : List Nat :=
  List.zipWith (fun x y => x ^^^ y) a b

theorem xorBytes_length (a b : List Nat) :
    (xorBytes a b).length = min a.length b.length := by
  simp [xorBytes]

/-- XOR-ing twice with the same key stream gives back the prefix of the
plaintext covered by the key stream. -/
theorem xorBytes_xorBytes (pt ks : List Nat) :
    xorBytes (xorBytes pt ks) ks = pt.take ks.length := by
  induction pt generalizing ks with
  | nil => simp [xorBytes]
  | cons p rest ih =>
    cases ks with
    | nil => simp [xorBytes]
    | cons k krest =>
      simp only [xorBytes, List.zipWith, List.take]
      refine congrArg₂ _ ?_ (ih krest)
      rw [Nat.xor_assoc, Nat.xor_self, Nat.xor_zero]

/-- Big-endian byte decoding. -/
def beBytesToNat (l : List Nat) : Nat :=
  l.foldl (fun acc b => acc * 256 + b) 0

/-- Big-endian fixed-width byte encoding. -/
def natToBeBytes (n len : Nat) : List Nat :=
  (List.range len).map (fun i => (n >>> (8 * (len - 1 - i))) % 256)

theorem natToBeBytes_length (n len : Nat) :
    (natToBeBytes n len).length = len := by
  simp [natToBeBytes]

/-- Normalise a list to exactly 16 bytes (AES blocks always are). -/
def fit16 (l : List Nat) : List Nat :=
  l.take 16 ++ List.replicate (16 - l.length) 0

theorem fit16_length (l : List Nat) : (fit16 l).length = 16 := by
  simp [fit16]
  omega

/-! ## AES-256 block cipher (FIPS 197), forward direction

Only the forward cipher is needed: GCM uses the block cipher in
counter mode for both encryption and decryption. -/

/-- Multiplication in GF(2^8) modulo x^8+x^4+x^3+x+1 (section 4.2 of
FIPS 197), by the shift-and-reduce loop over the 8 bits of `b`. -/
def gf8mulAux : Nat → Nat → Nat → Nat → Nat
  | 0, _, _, acc => acc
  | fuel + 1, a, b, acc =>
    let acc2 := if b % 2 == 1 then acc ^^^ a else acc
    let a2 := if a ≥ 128 then ((a * 2) % 256) ^^^ 0x1b else a * 2
    gf8mulAux fuel a2 (b / 2) acc2

def gf8mul (a b : Nat) : Nat := gf8mulAux 8 a b 0

/-- Exponentiation in GF(2^8) by square-and-multiply over 8 bits. -/
def gf8powAux (b e : Nat) : Nat → Nat → Nat
  | 0, acc => acc
  | fuel + 1, acc =>
    let acc2 := gf8mul acc acc
    let acc3 := if (e >>> fuel) % 2 == 1 then gf8mul acc2 b else acc2
    gf8powAux b e fuel acc3

def gf8pow (b e : Nat) : Nat := gf8powAux b e 8 1

/-- Multiplicative inverse in GF(2^8) (0 maps to 0). -/
def gf8inv (b : Nat) : Nat := if b == 0 then 0 else gf8pow b 254

/-- Rotate an 8-bit value left by `n`. -/
def rotl8 (x n : Nat) : Nat := ((x <<< n) ||| (x >>> (8 - n))) % 256

/-- The AES S-box: multiplicative inverse followed by the affine map
(section 5.1.1 of FIPS 197). -/
def sbox (b : Nat) : Nat :=
  let i := gf8inv b
  i ^^^ rotl8 i 1 ^^^ rotl8 i 2 ^^^ rotl8 i 3 ^^^ rotl8 i 4 ^^^ 0x63

def subWord (w : List Nat) : List Nat := w.map sbox

def rotWord : List Nat → List Nat
  | [] => []
  | a :: rest => rest ++ [a]

/-- Round constant: x^(i-1) in GF(2^8). -/
def rcon (i : Nat) : Nat := gf8pow 2 (i - 1)

/-- One step of the AES-256 key expansion (appends word `w[i]`,
`i = ws.length`, per section 5.2 of FIPS 197 with Nk = 8). -/
def expandKeyAux : Nat → List (List Nat) → List (List Nat)
  | 0, ws => ws
  | fuel + 1, ws =>
    let i := ws.length
    let temp := (ws.getLast?).getD []
    let temp2 :=
      if i % 8 == 0 then
        xorBytes (subWord (rotWord temp)) [rcon (i / 8), 0, 0, 0]
      else if i % 8 == 4 then subWord temp
      else temp
    expandKeyAux fuel (ws ++ [xorBytes (ws.getD (i - 8) []) temp2])

/-- AES-256 key expansion: 60 four-byte words from the 32-byte key. -/
def keyExpansion (key : List Nat) : List (List Nat) :=
  expandKeyAux 52 ((List.range 8).map (fun i => (key.drop (4 * i)).take 4))

/-- Bytes of round key `r` (words `4r .. 4r+3`). -/
def roundKeyBytes (ws : List (List Nat)) (r : Nat) : List Nat :=
  ((ws.drop (4 * r)).take 4).flatten

/-- The state is the flat 16-byte block in column-major order:
byte `i` sits at row `i % 4`, column `i / 4` (section 3.4). -/
def subBytesState (st : List Nat) : List Nat := st.map sbox

def shiftRowsState (st : List Nat) : List Nat :=
  (List.range 16).map (fun i => st.getD (4 * ((i / 4 + i % 4) % 4) + i % 4) 0)

def mixColumn (a : List Nat) : List Nat :=
  match a with
  | [a0, a1, a2, a3] =>
    [gf8mul 2 a0 ^^^ gf8mul 3 a1 ^^^ a2 ^^^ a3,
     a0 ^^^ gf8mul 2 a1 ^^^ gf8mul 3 a2 ^^^ a3,
     a0 ^^^ a1 ^^^ gf8mul 2 a2 ^^^ gf8mul 3 a3,
     gf8mul 3 a0 ^^^ a1 ^^^ a2 ^^^ gf8mul 2 a3]
  | other => other

def mixColumnsState (st : List Nat) : List Nat :=
  ((List.range 4).map (fun c => mixColumn ((st.drop (4 * c)).take 4))).flatten

def addRoundKey (st rk : List Nat) : List Nat := xorBytes st rk

/-- The 13 middle rounds of AES-256. -/
def aesRoundsAux (ws : List (List Nat)) : Nat → Nat → List Nat → List Nat
  | 0, _, st => st
  | fuel + 1, r, st =>
    aesRoundsAux ws fuel (r + 1)
      (addRoundKey (mixColumnsState (shiftRowsState (subBytesState st)))
        (roundKeyBytes ws r))

/-- The AES-256 forward cipher on a 16-byte block. -/
def aesBlock (key block : List Nat) : List Nat :=
  let ws := keyExpansion key
  let st0 := addRoundKey block (roundKeyBytes ws 0)
  let st13 := aesRoundsAux ws 13 1 st0
  addRoundKey (shiftRowsState (subBytesState st13)) (roundKeyBytes ws 14)

/-! ## GCM (NIST SP 800-38D) over the AES-256 block cipher

This models the `aes_gcm::Aes256Gcm` AEAD used by `crypto.rs` and
`vault/storage.rs`: 96-bit nonces, 16-byte tag appended to the
ciphertext, empty associated data. -/

/-- GHASH reduction constant R = 11100001 ‖ 0^120. -/
def gcmR : Nat := 0xe1000000000000000000000000000000

/-- Multiplication in GF(2^128) in GCM's bit ordering (algorithm 1 of
SP 800-38D), processing the 128 bits of `x` most-significant first. -/
def gf128mulAux (x : Nat) : Nat → Nat → Nat → Nat
  | 0, _, z => z
  | fuel + 1, v, z =>
    let z2 := if (x >>> fuel) % 2 == 1 then z ^^^ v else z
    let v2 := if v % 2 == 1 then (v >>> 1) ^^^ gcmR else v >>> 1
    gf128mulAux x fuel v2 z2

def gf128mul (x y : Nat) : Nat := gf128mulAux x 128 y 0

/-- Split a byte string into 16-byte chunks, the last zero-padded. -/
def chunks16Aux : Nat → List Nat → List (List Nat)
  | 0, _ => []
  | _, [] => []
  | fuel + 1, l => fit16 (l.take 16) :: chunks16Aux fuel (l.drop 16)

def chunks16 (l : List Nat) : List (List Nat) := chunks16Aux (l.length + 1) l

/-- GHASH of the ciphertext with empty associated data, including the
final length block (bit lengths of AAD and of the ciphertext). -/
def ghash (h : Nat) (ct : List Nat) : Nat :=
  let y := (chunks16 ct).foldl (fun y b => gf128mul (y ^^^ beBytesToNat b) h) 0
  gf128mul (y ^^^ (ct.length * 8)) h

/-- Counter block `nonce ‖ be32(i)` (J0 has i = 1; the key stream
starts at i = 2). -/
def gcmCounterBlock (nonce : List Nat) (i : Nat) : List Nat :=
  nonce ++ natToBeBytes i 4

/-- AES output normalised to exactly 16 bytes. -/
def gcmBlock (key blk : List Nat) : List Nat := fit16 (aesBlock key blk)

/-- The CTR key stream for a message of `len` bytes. -/
def gcmKeystream (key nonce : List Nat) (len : Nat) : List Nat :=
  (((List.range (len / 16 + 1)).map
      (fun i => gcmBlock key (gcmCounterBlock nonce (i + 2)))).flatten).take len

/-- The 16-byte authentication tag over the ciphertext. -/
def gcmTag (key nonce ct : List Nat) : List Nat :=
  let h := beBytesToNat (gcmBlock key (List.replicate 16 0))
  xorBytes (gcmBlock key (gcmCounterBlock nonce 1)) (natToBeBytes (ghash h ct) 16)

/-- AEAD encryption: ciphertext (same length as the plaintext)
followed by the 16-byte tag. -/
def gcmEncrypt (key nonce pt : List Nat) : List Nat :=
  let ct := xorBytes pt (gcmKeystream key nonce pt.length)
  ct ++ gcmTag key nonce ct

/-- AEAD decryption: `none` on any failure (input shorter than the tag,
or tag mismatch), as the `aes_gcm` crate's opaque `aead::Error`. -/
def gcmDecrypt (key nonce data : List Nat) : Option (List Nat) :=
  if data.length < 16 then none
  else
    let ct := data.take (data.length - 16)
    let tag := data.drop (data.length - 16)
    if gcmTag key nonce ct == tag then
      some (xorBytes ct (gcmKeystream key nonce ct.length))
    else none

theorem gcmKeystream_join_length (key nonce : List Nat) (n : Nat) :
    (((List.range n).map
        (fun i => gcmBlock key (gcmCounterBlock nonce (i + 2)))).flatten).length
      = 16 * n := by
  induction n with
  | zero => simp
  | succ m ih =>
    rw [List.range_succ, List.map_append, List.flatten_append,
      List.length_append, ih]
    simp only [List.map_cons, List.map_nil, List.flatten_cons,
      List.flatten_nil, List.append_nil, gcmBlock, fit16_length]
    omega

theorem gcmKeystream_length (key nonce : List Nat) (len : Nat) :
    (gcmKeystream key nonce len).length = len := by
  rw [gcmKeystream, List.length_take, gcmKeystream_join_length]
  have : len ≤ 16 * (len / 16 + 1) := by omega
  omega

theorem gcmTag_length (key nonce ct : List Nat) :
    (gcmTag key nonce ct).length = 16 := by
  simp [gcmTag, xorBytes_length, fit16_length, natToBeBytes_length, gcmBlock]

/-- Prefix extraction: `take` at the length of the left part. -/
theorem take_append_self {α : Type} (a b : List α) : (a ++ b).take a.length = a := by
  induction a with
  | nil => simp
  | cons x xs ih => simp [ih]

/-- Suffix extraction: `drop` at the length of the left part. -/
theorem drop_append_self {α : Type} (a b : List α) : (a ++ b).drop a.length = b := by
  induction a with
  | nil => simp
  | cons x xs ih => simp [ih]

/-- GCM round-trip: decrypting an encryption with the same key and
nonce recovers the plaintext. -/
theorem gcmDecrypt_gcmEncrypt (key nonce pt : List Nat) :
    gcmDecrypt key nonce (gcmEncrypt key nonce pt) = some pt := by
  have hct : (xorBytes pt (gcmKeystream key nonce pt.length)).length = pt.length := by
    rw [xorBytes_length, gcmKeystream_length, Nat.min_self]
  have hlen : (gcmEncrypt key nonce pt).length = pt.length + 16 := by
    simp [gcmEncrypt, hct, gcmTag_length]
  rw [gcmDecrypt, hlen]
  have hnotlt : ¬ pt.length + 16 < 16 := by omega
  simp only [hnotlt, if_false]
  have hsub : pt.length + 16 - 16 = pt.length := by omega
  rw [hsub]
  have htake : (gcmEncrypt key nonce pt).take pt.length
      = xorBytes pt (gcmKeystream key nonce pt.length) := by
    rw [gcmEncrypt]
    have := take_append_self (xorBytes pt (gcmKeystream key nonce pt.length))
      (gcmTag key nonce (xorBytes pt (gcmKeystream key nonce pt.length)))
    rw [hct] at this
    exact this
  have hdrop : (gcmEncrypt key nonce pt).drop pt.length
      = gcmTag key nonce (xorBytes pt (gcmKeystream key nonce pt.length)) := by
    rw [gcmEncrypt]
    have := drop_append_self (xorBytes pt (gcmKeystream key nonce pt.length))
      (gcmTag key nonce (xorBytes pt (gcmKeystream key nonce pt.length)))
    rw [hct] at this
    exact this
  rw [htake, hdrop]
  simp only [beq_self_eq_true, if_true]
  rw [hct, xorBytes_xorBytes, gcmKeystream_length, List.take_length]

/-! ## `crypto.rs`: `encrypt_content` / `decrypt_content`

The random nonce drawn from the OS CSPRNG inside `encrypt_content` is
passed as an explicit argument. -/

/-- `encrypt_content` from `security/crypto.rs`: key-length check, then
AES-256-GCM with the random 12-byte nonce prepended. -/
def encrypt_content (content shared_secret nonce : List Nat) :
    Except DecentPasteError (List Nat) :=
  if shared_secret.length ≠ 32 then
    .error (.Encryption "Shared secret must be 32 bytes")
  else
    .ok (nonce ++ gcmEncrypt shared_secret nonce content)

/-- `decrypt_content` from `security/crypto.rs`: key-length check,
short-input check, split off the 12-byte nonce, AEAD-decrypt. -/
def decrypt_content (encrypted shared_secret : List Nat) :
    Except DecentPasteError (List Nat) :=
  if shared_secret.length ≠ 32 then
    .error (.Encryption "Shared secret must be 32 bytes")
  else if encrypted.length < 12 then
    .error (.Encryption "Data too short")
  else
    match gcmDecrypt shared_secret (encrypted.take 12) (encrypted.drop 12) with
    | some pt => .ok pt
    | none => .error (.Encryption "aead::Error")

/-- C2: for every byte sequence `b`, 32-byte key `k`, and 12-byte
nonce, `encrypt_content` succeeds producing the nonce-prefixed
AES-256-GCM blob, and `decrypt_content` of that blob with the same key
returns `b`. -/
theorem decrypt_content_encrypt_content (b k nonce : List Nat)
    (hk : k.length = 32) (hn : nonce.length = 12) :
    ∃ blob, encrypt_content b k nonce = .ok blob ∧
      blob = nonce ++ gcmEncrypt k nonce b ∧
      decrypt_content blob k = .ok b := by
  refine ⟨nonce ++ gcmEncrypt k nonce b, ?_, rfl, ?_⟩
  · rw [encrypt_content]
    simp [hk]
  · rw [decrypt_content]
    have hlen : (nonce ++ gcmEncrypt k nonce b).length ≥ 12 := by
      simp [hn]
    have htake : (nonce ++ gcmEncrypt k nonce b).take 12 = nonce := by
      have := take_append_self nonce (gcmEncrypt k nonce b)
      rwa [hn] at this
    have hdrop : (nonce ++ gcmEncrypt k nonce b).drop 12 = gcmEncrypt k nonce b := by
      have := drop_append_self nonce (gcmEncrypt k nonce b)
      rwa [hn] at this
    simp only [hk]
    rw [if_neg (by omega), if_neg (by omega), htake, hdrop,
      gcmDecrypt_gcmEncrypt]

/-- Witness for C2 at a concrete input. -/
theorem decrypt_content_encrypt_content_witness :
    (List.replicate 32 7).length = 32 ∧ (List.replicate 12 9).length = 12 ∧
      ∃ blob,
        encrypt_content [104, 105] (List.replicate 32 7) (List.replicate 12 9) = .ok blob ∧
        blob = List.replicate 12 9 ++ gcmEncrypt (List.replicate 32 7) (List.replicate 12 9) [104, 105] ∧
        decrypt_content blob (List.replicate 32 7) = .ok [104, 105] :=
  ⟨by simp, by simp,
    decrypt_content_encrypt_content [104, 105] (List.replicate 32 7)
      (List.replicate 12 9) (by simp) (by simp)⟩

/-! ## X25519 (RFC 7748)

Models the `x25519-dalek` crate used by `security/identity.rs`. -/

def p25519 : Nat := 2 ^ 255 - 19

def fadd25519 (a b : Nat) : Nat := (a + b) % p25519
def fsub25519 (a b : Nat) : Nat := (a + (p25519 - b % p25519)) % p25519
def fmul25519 (a b : Nat) : Nat := a * b % p25519

/-- Modular exponentiation by square-and-multiply over 256 bits. -/
def fpow25519Aux (b e : Nat) : Nat → Nat → Nat
  | 0, acc => acc
  | fuel + 1, acc =>
    let acc2 := fmul25519 acc acc
    let acc3 := if (e >>> fuel) % 2 == 1 then fmul25519 acc2 b else acc2
    fpow25519Aux b e fuel acc3

def fpow25519 (b e : Nat) : Nat := fpow25519Aux (b % p25519) e 256 1

/-- Scalar clamping: clear bits 0-2 and 255, set bit 254. -/
def clampScalar (n : Nat) : Nat := (n &&& (2 ^ 255 - 8)) ||| 2 ^ 254

/-- One pass of the constant-time Montgomery ladder of RFC 7748,
section 5; the quintuple is `(x2, z2, x3, z3, swap)` and `t` is the
current bit index (`fuel - 1`). -/
def ladder25519Aux (k x1 : Nat) :
    Nat → Nat × Nat × Nat × Nat × Nat → Nat × Nat × Nat × Nat × Nat
  | 0, st => st
  | fuel + 1, (x2, z2, x3, z3, swap) =>
    let kt := (k >>> fuel) % 2
    let sw := (swap + kt) % 2
    let x2s := if sw == 1 then x3 else x2
    let x3s := if sw == 1 then x2 else x3
    let z2s := if sw == 1 then z3 else z2
    let z3s := if sw == 1 then z2 else z3
    let a := fadd25519 x2s z2s
    let aa := fmul25519 a a
    let b := fsub25519 x2s z2s
    let bb := fmul25519 b b
    let e := fsub25519 aa bb
    let c := fadd25519 x3s z3s
    let d := fsub25519 x3s z3s
    let da := fmul25519 d a
    let cb := fmul25519 c b
    let x3n := fmul25519 (fadd25519 da cb) (fadd25519 da cb)
    let z3n := fmul25519 x1 (fmul25519 (fsub25519 da cb) (fsub25519 da cb))
    let x2n := fmul25519 aa bb
    let z2n := fmul25519 e (fadd25519 aa (fmul25519 121665 e))
    ladder25519Aux k x1 fuel (x2n, z2n, x3n, z3n, kt)

/-- Little-endian byte decoding. -/
def leBytesToNat (l : List Nat) : Nat :=
  l.foldr (fun b acc => acc * 256 + b) 0

/-- Little-endian 32-byte encoding. -/
def natToLeBytes32 (n : Nat) : List Nat :=
  (List.range 32).map (fun i => (n >>> (8 * i)) % 256)

theorem natToLeBytes32_length (n : Nat) : (natToLeBytes32 n).length = 32 := by
  simp [natToLeBytes32]

/-- The X25519 function of RFC 7748 on 32-byte strings. -/
def x25519 (priv pub : List Nat) : List Nat :=
  let k := clampScalar (leBytesToNat priv)
  let u := (leBytesToNat pub) % 2 ^ 255 % p25519
  let st := ladder25519Aux k u 255 (1, 0, u, 1, 0)
  let x2f := if st.2.2.2.2 == 1 then st.2.2.1 else st.1
  let z2f := if st.2.2.2.2 == 1 then st.2.2.2.1 else st.2.1
  natToLeBytes32 (fmul25519 x2f (fpow25519 z2f (p25519 - 2)))

theorem x25519_length (priv pub : List Nat) : (x25519 priv pub).length = 32 :=
  natToLeBytes32_length _

/-- `derive_shared_secret` from `security/identity.rs`: length checks on
both keys, then X25519 ECDH. -/
def derive_shared_secret (our_private_key their_public_key : List Nat) :
    Except DecentPasteError (List Nat) :=
  if our_private_key.length ≠ 32 then
    .error (.Encryption "Private key must be 32 bytes")
  else if their_public_key.length ≠ 32 then
    .error (.Encryption "Public key must be 32 bytes")
  else
    .ok (x25519 our_private_key their_public_key)

/-! ## Data model (`clipboard/sync.rs`, `storage/peers.rs`,
`storage/config.rs`, `vault/storage.rs`)

`String` content is modelled by its UTF-8 byte sequence (`List Nat`),
because the sources measure and encrypt `content.as_bytes()`.
`chrono` timestamps are `Int` nanoseconds. -/

structure ClipboardEntry where
  id : String
  content : List Nat
  content_hash : String
  timestamp : Int
  origin_device_id : String
  origin_device_name : String
  is_local : Bool
  deriving DecidableEq, Repr

structure PairedPeer where
  peer_id : String
  device_name : String
  shared_secret : List Nat
  paired_at : Int
  last_seen : Option Int
  last_known_addresses : List String
  deriving DecidableEq, Repr

structure DeviceIdentity where
  device_id : String
  device_name : String
  public_key : List Nat
  private_key : Option (List Nat)
  created_at : Int
  deriving DecidableEq, Repr

structure DiscoveredPeer where
  peer_id : String
  device_name : Option String
  addresses : List String
  discovered_at : Int
  is_paired : Bool
  deriving DecidableEq, Repr

/-- The wire-level clipboard message from `network/protocol.rs`. -/
structure ClipboardMessage where
  id : String
  content_hash : String
  encrypted_content : List Nat
  timestamp : Int
  origin_device_id : String
  origin_device_name : String
  deriving DecidableEq, Repr

/-! ## `security/pairing.rs`: session expiry (C6) -/

inductive PairingState where
  | Initiated
  | AwaitingPinConfirmation
  | AwaitingPeerConfirmation
  | Completed
  | Failed : String → PairingState
  deriving DecidableEq, Repr

/-- `PairingSession` from `security/pairing.rs`.  The `peer_addresses`
field (addresses captured at pairing initiation) is read by the
`PairingComplete` handler in `lib.rs` and listed in the spec's data
model, so it is part of the embedded record. -/
structure PairingSession where
  session_id : String
  peer_id : String
  peer_name : Option String
  peer_public_key : Option (List Nat)
  peer_addresses : List String
  pin : Option String
  state : PairingState
  is_initiator : Bool
  created_at : Int
  deriving DecidableEq, Repr

/-- `PairingSession::is_expired`, as a function of the session age in
whole seconds (`created_at ≤ now`, so `Nat` suffices).  The source
computes `Utc::now().signed_duration_since(self.created_at)` and tests
`duration.num_minutes() > 5`; chrono's `num_minutes` truncates the
duration to whole minutes, which division by 60 mirrors. -/
def is_expired (ageSeconds : Nat) : Bool :=
  ageSeconds / 60 > 5

/-- C6: the code's expiry predicate evaluated at the boundary.  A
session aged 4 min 59 s is not expired, as the claim states — but a
session aged 5 min 1 s is NOT expired either (`num_minutes` truncates
301 s to 5 whole minutes and `5 > 5` is false), contradicting the
claim and the source's own `// 5 minute timeout` comment; the session
only expires once its age reaches 6 whole minutes (360 s). -/
theorem is_expired_truncates_to_whole_minutes :
    is_expired (4 * 60 + 59) = false ∧
    is_expired (5 * 60 + 1) = false ∧
    is_expired (5 * 60 + 59) = false ∧
    is_expired (6 * 60) = true := by
  decide

/-! ## `vault/storage.rs`: `read_vault` error classification (C3) -/

structure VaultData where
  clipboard_history : List ClipboardEntry
  paired_peers : List PairedPeer
  device_identity : Option DeviceIdentity
  libp2p_keypair : Option (List Nat)
  deriving DecidableEq, Repr

/-- `read_vault` from `vault/storage.rs`.  The vault file bytes are
passed as `blob`; the `serde_json` decoding of the decrypted plaintext
is the `parse` parameter (an external codec).  Layout:
`[12-byte nonce][AES-256-GCM ciphertext with 16-byte tag]`.  Every
AEAD decryption failure — wrong key or corrupted ciphertext — is
mapped to `InvalidPin`. -/
def read_vault (parse : List Nat → Option VaultData)
    (key blob : List Nat) : Except DecentPasteError VaultData :=
  if blob.length < 12 then .error (.Storage "Vault file too short")
  else
    match gcmDecrypt key (blob.take 12) (blob.drop 12) with
    | none => .error .InvalidPin
    | some plaintext =>
      match parse plaintext with
      | some data => .ok data
      | none => .error (.Storage "Vault data corrupted")

/-- Opening the vault with a PIN: derive the key from the PIN (the
Argon2id KDF is an external crate, passed as `deriveKey`) and read the
vault; decryption-tag failure is the sole PIN oracle (no separate PIN
hash is stored). -/
def vault_open (parse : List Nat → Option VaultData)
    (deriveKey : String → List Nat) (pin : String) (blob : List Nat) :
    Except DecentPasteError VaultData :=
  read_vault parse (deriveKey pin) blob

/-- C3: for a well-formed-length vault blob, opening with a PIN fails
with `InvalidPin` exactly when AEAD decryption under the PIN-derived
key fails — so a wrong PIN yields `InvalidPin`, and a corrupted
ciphertext or tag yields the same `InvalidPin`, with no distinction in
the public contract (no other error is ever reported as
`InvalidPin`). -/
theorem vault_open_invalid_pin_iff_decrypt_failure
    (parse : List Nat → Option VaultData) (deriveKey : String → List Nat)
    (pin : String) (blob : List Nat) (hlen : 12 ≤ blob.length) :
    vault_open parse deriveKey pin blob = .error .InvalidPin ↔
      gcmDecrypt (deriveKey pin) (blob.take 12) (blob.drop 12) = none := by
  rw [vault_open, read_vault, if_neg (by omega)]
  cases hdec : gcmDecrypt (deriveKey pin) (blob.take 12) (blob.drop 12) with
  | none => simp
  | some plaintext =>
    cases hp : parse plaintext with
    | none => simp [hp]
    | some data => simp [hp]

/-- Witness for C3: a 22-byte blob (too short to contain a 16-byte
tag after the nonce, so AEAD decryption fails) opened with a wrong
PIN. -/
theorem vault_open_invalid_pin_witness :
    12 ≤ (List.replicate 22 0).length ∧
      (vault_open (fun _ => none) (fun _ => List.replicate 32 0) "9999"
          (List.replicate 22 0) = .error .InvalidPin ↔
        gcmDecrypt (List.replicate 32 0) ((List.replicate 22 0).take 12)
          ((List.replicate 22 0).drop 12) = none) :=
  ⟨by simp,
    vault_open_invalid_pin_iff_decrypt_failure (fun _ => none)
      (fun _ => List.replicate 32 0) "9999" (List.replicate 22 0) (by simp)⟩

/-! ## `state.rs`: clipboard history insertion (C4)

`AppState::add_clipboard_entry` as a pure function of the configured
`clipboard_history_limit`, the current history and the new entry. -/

/-- The deduplication step: `position(|e| e.content_hash == entry.content_hash)`
followed by `remove(idx)`. -/
def dedupByHash (history : List ClipboardEntry) (h : String) : List ClipboardEntry :=
  match history.findIdx? (fun e => e.content_hash == h) with
  | some idx => history.eraseIdx idx
  | none => history

/-- The insertion position: `position(|e| e.timestamp < entry.timestamp)`
defaulting to the end of the list. -/
def insertPos (history : List ClipboardEntry) (entry : ClipboardEntry) : Nat :=
  (history.findIdx? (fun e => decide (e.timestamp < entry.timestamp))).getD history.length

/-- `AppState::add_clipboard_entry` from `state.rs`: deduplicate by
content hash, insert at the first position whose entry is older, trim
to the configured limit. -/
def add_clipboard_entry (limit : Nat) (history : List ClipboardEntry)
    (entry : ClipboardEntry) : List ClipboardEntry :=
  let deduped := dedupByHash history entry.content_hash
  let inserted := deduped.insertIdx (insertPos deduped entry) entry
  inserted.take limit

/-- Recursive form of the dedup step (drop the first hash match). -/
def erasePHash (h : String) : List ClipboardEntry → List ClipboardEntry
  | [] => []
  | e :: rest => if e.content_hash == h then rest else e :: erasePHash h rest

theorem dedupByHash_eq_erasePHash (h : String) (history : List ClipboardEntry) :
    dedupByHash history h = erasePHash h history := by
  induction history with
  | nil => rfl
  | cons e rest ih =>
    by_cases he : e.content_hash == h
    · simp [dedupByHash, erasePHash, List.findIdx?_cons, he]
    · simp only [dedupByHash, erasePHash, List.findIdx?_cons, he, if_false,
        cond_false] at *
      cases hf : rest.findIdx? (fun e => e.content_hash == h) with
      | none => simp [hf] at ih ⊢; exact ih
      | some idx => simp [hf, List.eraseIdx] at ih ⊢; exact ih

/-- Recursive form of position-and-insert (insert before the first
strictly older entry). -/
def insertByTimestamp (entry : ClipboardEntry) : List ClipboardEntry → List ClipboardEntry
  | [] => [entry]
  | e :: rest =>
    if e.timestamp < entry.timestamp then entry :: e :: rest
    else e :: insertByTimestamp entry rest

theorem insertIdx_insertPos_eq (entry : ClipboardEntry) (l : List ClipboardEntry) :
    l.insertIdx (insertPos l entry) entry = insertByTimestamp entry l := by
  induction l with
  | nil => rfl
  | cons e rest ih =>
    by_cases he : e.timestamp < entry.timestamp
    · simp [insertPos, List.findIdx?_cons, he, List.insertIdx, insertByTimestamp]
    · simp only [insertPos, List.findIdx?_cons, he, insertByTimestamp,
        if_false, decide_eq_true_eq, cond_eq_if] at *
      cases hf : rest.findIdx? (fun e => decide (e.timestamp < entry.timestamp)) with
      | none => simp [hf, List.insertIdx] at ih ⊢; exact ih
      | some idx => simp [hf, List.insertIdx] at ih ⊢; exact ih

/-- History order invariant: newest first (non-strict on ties). -/
def SortedNewestFirst (l : List ClipboardEntry) : Prop :=
  List.Pairwise (fun a b => b.timestamp ≤ a.timestamp) l

theorem erasePHash_sublist (h : String) (l : List ClipboardEntry) :
    (erasePHash h l).Sublist l := by
  induction l with
  | nil => simp [erasePHash]
  | cons e rest ih =>
    by_cases he : e.content_hash == h
    · simp [erasePHash, he]
    · simpa [erasePHash, he] using ih.cons₂ e

theorem mem_insertByTimestamp (x entry : ClipboardEntry) (l : List ClipboardEntry) :
    x ∈ insertByTimestamp entry l ↔ x = entry ∨ x ∈ l := by
  induction l with
  | nil => simp [insertByTimestamp]
  | cons e rest ih =>
    by_cases he : e.timestamp < entry.timestamp
    · simp [insertByTimestamp, he]
    · simp only [insertByTimestamp, he, if_false, List.mem_cons, ih]
      tauto

theorem sorted_insertByTimestamp (entry : ClipboardEntry) (l : List ClipboardEntry)
    (hl : SortedNewestFirst l) : SortedNewestFirst (insertByTimestamp entry l) := by
  induction l with
  | nil => simp [insertByTimestamp, SortedNewestFirst]
  | cons e rest ih =>
    rw [SortedNewestFirst, List.pairwise_cons] at hl
    by_cases he : e.timestamp < entry.timestamp
    · rw [SortedNewestFirst]
      simp only [insertByTimestamp, he, if_true]
      rw [List.pairwise_cons]
      refine ⟨?_, List.pairwise_cons.mpr hl⟩
      intro b hb
      rcases List.mem_cons.mp hb with hb | hb
      · exact hb ▸ he.le
      · exact (hl.1 b hb).trans he.le
    · rw [SortedNewestFirst]
      simp only [insertByTimestamp, he, if_false]
      rw [List.pairwise_cons]
      refine ⟨?_, ih hl.2⟩
      intro b hb
      rcases (mem_insertByTimestamp b entry rest).mp hb with hb | hb
      · exact hb ▸ (not_lt.mp he)
      · exact hl.1 b hb

theorem hash_not_mem_erasePHash (h : String) (l : List ClipboardEntry)
    (hn : (l.map ClipboardEntry.content_hash).Nodup) :
    h ∉ (erasePHash h l).map ClipboardEntry.content_hash := by
  induction l with
  | nil => simp [erasePHash]
  | cons e rest ih =>
    rw [List.map_cons, List.nodup_cons] at hn
    by_cases he : e.content_hash == h
    · have hrw : erasePHash h (e :: rest) = rest := by simp [erasePHash, he]
      rw [hrw]
      have heq : e.content_hash = h := by simpa using he
      exact heq ▸ hn.1
    · have hrw : erasePHash h (e :: rest) = e :: erasePHash h rest := by
        simp [erasePHash, he]
      rw [hrw, List.map_cons, List.mem_cons]
      rintro (hcon | hcon)
      · exact he (by simp [hcon])
      · exact ih hn.2 hcon

theorem nodup_erasePHash (h : String) (l : List ClipboardEntry)
    (hn : (l.map ClipboardEntry.content_hash).Nodup) :
    ((erasePHash h l).map ClipboardEntry.content_hash).Nodup :=
  hn.sublist ((erasePHash_sublist h l).map ClipboardEntry.content_hash)

theorem nodup_insertByTimestamp (entry : ClipboardEntry) (l : List ClipboardEntry)
    (hn : (l.map ClipboardEntry.content_hash).Nodup)
    (hmem : entry.content_hash ∉ l.map ClipboardEntry.content_hash) :
    ((insertByTimestamp entry l).map ClipboardEntry.content_hash).Nodup := by
  induction l with
  | nil => simp [insertByTimestamp]
  | cons e rest ih =>
    rw [List.map_cons, List.nodup_cons] at hn
    rw [List.map_cons, List.mem_cons] at hmem
    push_neg at hmem
    by_cases he : e.timestamp < entry.timestamp
    · simp only [insertByTimestamp, he, if_true, List.map_cons, List.nodup_cons,
        List.mem_cons]
      push_neg
      exact ⟨⟨fun hc => hmem.1 hc, hmem.2⟩, hn.1, hn.2⟩
    · simp only [insertByTimestamp, he, if_false, List.map_cons, List.nodup_cons]
      refine ⟨?_, ih hn.2 hmem.2⟩
      intro hc
      rcases List.mem_map.mp hc with ⟨x, hx, hxh⟩
      rcases (mem_insertByTimestamp x entry rest).mp hx with hx | hx
      · exact hmem.1 (by rw [← hxh, hx])
      · exact hn.1 (hxh ▸ List.mem_map_of_mem ClipboardEntry.content_hash hx)

/-- A single `add_clipboard_entry` call preserves the history
invariants and bounds the length by the configured limit. -/
theorem add_clipboard_entry_step (limit : Nat) (history : List ClipboardEntry)
    (entry : ClipboardEntry) (hs : SortedNewestFirst history)
    (hn : (history.map ClipboardEntry.content_hash).Nodup) :
    SortedNewestFirst (add_clipboard_entry limit history entry) ∧
    ((add_clipboard_entry limit history entry).map ClipboardEntry.content_hash).Nodup ∧
    (add_clipboard_entry limit history entry).length ≤ limit := by
  have heq : add_clipboard_entry limit history entry =
      (insertByTimestamp entry (erasePHash entry.content_hash history)).take limit := by
    rw [add_clipboard_entry, dedupByHash_eq_erasePHash, insertIdx_insertPos_eq]
  have hsorted : SortedNewestFirst
      (insertByTimestamp entry (erasePHash entry.content_hash history)) :=
    sorted_insertByTimestamp entry _
      (hs.sublist (erasePHash_sublist entry.content_hash history))
  have hnodup : ((insertByTimestamp entry
      (erasePHash entry.content_hash history)).map ClipboardEntry.content_hash).Nodup :=
    nodup_insertByTimestamp entry _ (nodup_erasePHash _ _ hn)
      (hash_not_mem_erasePHash _ _ hn)
  refine heq ▸ ⟨?_, ?_, ?_⟩
  · exact hsorted.sublist (List.take_sublist _ _)
  · exact hnodup.sublist ((List.take_sublist _ _).map ClipboardEntry.content_hash)
  · rw [List.length_take]
    exact Nat.min_le_left _ _

/-- C4 (amended): for every sequence of `add_clipboard_entry` calls
starting from an empty history, the resulting history is sorted
newest-first by timestamp (non-strictly: calls with equal timestamps
produce adjacent equal-timestamp entries, the newer call placed after
the existing one), contains at most one entry per `content_hash`, and
has length at most the configured `clipboard_history_limit` with the
oldest entries truncated. -/
theorem clipboard_history_invariants (limit : Nat) (entries : List ClipboardEntry) :
    SortedNewestFirst (entries.foldl (add_clipboard_entry limit) []) ∧
    ((entries.foldl (add_clipboard_entry limit) []).map
        ClipboardEntry.content_hash).Nodup ∧
    (entries.foldl (add_clipboard_entry limit) []).length ≤ limit := by
  suffices haux : ∀ (es : List ClipboardEntry) (h0 : List ClipboardEntry),
      SortedNewestFirst h0 → (h0.map ClipboardEntry.content_hash).Nodup →
      h0.length ≤ limit →
      SortedNewestFirst (es.foldl (add_clipboard_entry limit) h0) ∧
      ((es.foldl (add_clipboard_entry limit) h0).map
          ClipboardEntry.content_hash).Nodup ∧
      (es.foldl (add_clipboard_entry limit) h0).length ≤ limit by
    exact haux entries [] (by simp [SortedNewestFirst]) (by simp) (by simp)
  intro es
  induction es with
  | nil => intro h0 hs hn hl; exact ⟨hs, hn, hl⟩
  | cons e rest ih =>
    intro h0 hs hn _
    rw [List.foldl_cons]
    obtain ⟨hs1, hn1, hl1⟩ := add_clipboard_entry_step limit h0 e hs hn
    exact ih _ hs1 hn1 hl1

def c4entry1 : ClipboardEntry := ⟨"id1", [97], "hashA", 5, "dev", "dev", true⟩
def c4entry2 : ClipboardEntry := ⟨"id2", [98], "hashB", 5, "dev", "dev", true⟩

/-- C4 counterexample: inserting two entries that carry the same
timestamp but different content hashes yields a history containing
both, which is NOT strictly sorted newest-first by timestamp (the
strict comparison `5 < 5` fails), refuting the claim as stated. -/
theorem add_clipboard_entry_not_strictly_sorted :
    [c4entry1, c4entry2].foldl (add_clipboard_entry 50) [] = [c4entry1, c4entry2] ∧
    ¬ List.Pairwise (fun a b => b.timestamp < a.timestamp) [c4entry1, c4entry2] := by
  constructor
  · rfl
  · intro h
    have := (List.pairwise_cons.mp h).1 c4entry2 (by simp)
    simp [c4entry1, c4entry2] at this

/-! ## `state.rs`: per-recipient offline message buffers (C9) -/

/-- Maximum number of messages buffered per peer (`state.rs`). -/
def SYNC_MAX_BUFFER_SIZE : Nat := 1

/-- Time-to-live for buffered messages in seconds (`state.rs`). -/
def SYNC_TTL_SECONDS : Int := 60 * 5

/-- The push-then-truncate step of `store_buffered_message` on one
peer's buffer: push the message, then drain the front down to
`SYNC_MAX_BUFFER_SIZE` when over capacity. -/
def store_buffer_step (buffer : List ClipboardMessage)
    (message : ClipboardMessage) : List ClipboardMessage :=
  let buffer2 := buffer ++ [message]
  if buffer2.length > SYNC_MAX_BUFFER_SIZE then
    buffer2.drop (buffer2.length - SYNC_MAX_BUFFER_SIZE)
  else buffer2

/-- `AppState::store_buffered_message`: the `message_buffers` HashMap
is modelled as a total function from peer id to buffer (missing keys
read as the `or_default` empty buffer). -/
def store_buffered_message (buffers : String → List ClipboardMessage)
    (peer_id : String) (message : ClipboardMessage) :
    String → List ClipboardMessage :=
  fun p => if p = peer_id then store_buffer_step (buffers peer_id) message
    else buffers p

/-- `AppState::get_buffer_for_peer`: read-only TTL filter; timestamps
are nanoseconds, and chrono's duration comparison is exact, so a
message survives iff its age is strictly below the TTL. -/
def get_buffer_for_peer (buffers : String → List ClipboardMessage)
    (peer_id : String) (now : Int) : List ClipboardMessage :=
  (buffers peer_id).filter
    (fun msg => now - msg.timestamp < SYNC_TTL_SECONDS * 1000000000)

theorem store_buffer_step_latest (b : List ClipboardMessage)
    (m : ClipboardMessage) : store_buffer_step b m = [m] := by
  show (if (b ++ [m]).length > SYNC_MAX_BUFFER_SIZE then
      (b ++ [m]).drop ((b ++ [m]).length - SYNC_MAX_BUFFER_SIZE)
    else (b ++ [m])) = [m]
  have hlen : (b ++ [m]).length = b.length + 1 := by simp
  rcases Nat.eq_zero_or_pos b.length with hb | hb
  · rw [List.eq_nil_of_length_eq_zero hb]
    simp [SYNC_MAX_BUFFER_SIZE]
  · rw [if_pos (by rw [hlen]; simp only [SYNC_MAX_BUFFER_SIZE]; omega), hlen]
    have h2 : b.length + 1 - SYNC_MAX_BUFFER_SIZE = b.length := by
      simp [SYNC_MAX_BUFFER_SIZE]
    rw [h2]
    exact drop_append_self b [m]

theorem foldl_store_buffer (msgs : List ClipboardMessage)
    (b0 : List ClipboardMessage) (hne : msgs ≠ []) :
    msgs.foldl store_buffer_step b0 = msgs.drop (msgs.length - SYNC_MAX_BUFFER_SIZE) := by
  induction msgs generalizing b0 with
  | nil => exact absurd rfl hne
  | cons m rest ih =>
    rw [List.foldl_cons, store_buffer_step_latest]
    cases hr : rest with
    | nil => simp [SYNC_MAX_BUFFER_SIZE]
    | cons m2 rest2 =>
      rw [← hr]
      have hrne : rest ≠ [] := by simp [hr]
      rw [ih [m] hrne]
      have hlen : rest.length ≥ 1 := by
        rw [hr]; simp
      have h1 : (m :: rest).length - SYNC_MAX_BUFFER_SIZE
          = (rest.length - SYNC_MAX_BUFFER_SIZE) + 1 := by
        simp [SYNC_MAX_BUFFER_SIZE]
        omega
      rw [h1, List.drop_succ_cons]

/-- C9: starting from a fresh state, after any sequence of
`store_buffered_message` calls for a peer, that peer's buffer is
exactly the latest `SYNC_MAX_BUFFER_SIZE` of the stored messages in
arrival order (so its length never exceeds the bound), and
`get_buffer_for_peer` returns exactly the buffered messages whose age
is strictly less than `SYNC_TTL_SECONDS` (expired ones are dropped
from the read). -/
theorem buffered_messages_bounded_and_ttl (msgs : List ClipboardMessage)
    (peer : String) (now : Int) :
    ((msgs.foldl (fun bs m => store_buffered_message bs peer m)
        (fun _ => [])) peer
      = msgs.drop (msgs.length - SYNC_MAX_BUFFER_SIZE)) ∧
    ((msgs.foldl (fun bs m => store_buffered_message bs peer m)
        (fun _ => [])) peer).length ≤ SYNC_MAX_BUFFER_SIZE ∧
    (∀ m, m ∈ get_buffer_for_peer
        (msgs.foldl (fun bs m => store_buffered_message bs peer m)
          (fun _ => [])) peer now ↔
      m ∈ (msgs.foldl (fun bs m => store_buffered_message bs peer m)
          (fun _ => [])) peer ∧
        now - m.timestamp < SYNC_TTL_SECONDS * 1000000000) := by
  have hfun : ∀ (ms : List ClipboardMessage) (bs0 : String → List ClipboardMessage),
      (ms.foldl (fun bs m => store_buffered_message bs peer m) bs0) peer
        = ms.foldl store_buffer_step (bs0 peer) := by
    intro ms
    induction ms with
    | nil => intro bs0; rfl
    | cons m rest ih =>
      intro bs0
      rw [List.foldl_cons, List.foldl_cons, ih]
      simp [store_buffered_message]
  have hbuf : (msgs.foldl (fun bs m => store_buffered_message bs peer m)
      (fun _ => [])) peer = msgs.drop (msgs.length - SYNC_MAX_BUFFER_SIZE) := by
    rw [hfun]
    cases hm : msgs with
    | nil => rfl
    | cons m rest =>
      rw [← hm]
      exact foldl_store_buffer msgs [] (by simp [hm])
  refine ⟨hbuf, ?_, ?_⟩
  · rw [hbuf, List.length_drop]
    omega
  · intro m
    simp [get_buffer_for_peer, List.mem_filter]

/-! ## `clipboard/sync.rs`: echo suppression (C5)

`Instant`s are `Nat` nanoseconds of a monotonic clock;
`duration_since(t).as_secs()` is the truncating division by 10^9 of the
saturating difference, which `Nat` subtraction and division mirror.
The `recent_hashes` HashMap is modelled as an association list with
distinct keys; `drain()` yields it in list order, and `sort_by_key` is
a stable insertion sort by timestamp. -/

def RECENT_HASH_TTL_SECS : Nat := 10
def MAX_RECENT_HASHES : Nat := 100

structure SyncManager where
  recent_hashes : List (String × Nat)
  local_hash : Option String
  deriving DecidableEq, Repr

/-- The retain step of `cleanup_expired`: keep entries whose age in
whole seconds is below the TTL. -/
def ttlFilter (now : Nat) (l : List (String × Nat)) : List (String × Nat) :=
  l.filter (fun e => (now - e.2) / 1000000000 < RECENT_HASH_TTL_SECS)

/-- Stable insertion into a list sorted ascending by timestamp. -/
def insertTimeSorted (e : String × Nat) : List (String × Nat) → List (String × Nat)
  | [] => [e]
  | x :: xs => if e.2 < x.2 then e :: x :: xs else x :: insertTimeSorted e xs

/-- `entries.sort_by_key(|(_, time)| *time)`. -/
def sortByTime (l : List (String × Nat)) : List (String × Nat) :=
  l.foldr insertTimeSorted []

/-- `SyncManager::cleanup_expired`: drop entries at or past the TTL,
then, if more than `MAX_RECENT_HASHES` remain, keep only the newest
half (sort ascending by insertion time and skip the oldest
`MAX_RECENT_HASHES / 2`). -/
def cleanup_expired (now : Nat) (m : SyncManager) : SyncManager :=
  let retained := ttlFilter now m.recent_hashes
  let limited :=
    if retained.length > MAX_RECENT_HASHES then
      (sortByTime retained).drop (MAX_RECENT_HASHES / 2)
    else retained
  { m with recent_hashes := limited }

/-- `SyncManager::should_broadcast`: clean up, then suppress when the
hash is in the recent-received set, equals the last local hash, or the
change is not local; otherwise record it as the local hash and allow
the broadcast. -/
def should_broadcast (now : Nat) (m : SyncManager) (content_hash : String)
    (is_local : Bool) : Bool × SyncManager :=
  let m1 := cleanup_expired now m
  if m1.recent_hashes.any (fun e => e.1 == content_hash) then (false, m1)
  else if m1.local_hash == some content_hash then (false, m1)
  else if !is_local then (false, m1)
  else (true, { m1 with local_hash := some content_hash })

/-- C5 counterexample state: 101 distinct hashes all younger than the
10 s TTL, with `"tgt"` the oldest of them. -/
def c5state : SyncManager :=
  ⟨("tgt", 11000000000) ::
      (List.range 100).map (fun i => (toString i, 12000000000 + i * 1000000)),
    none⟩

/-- C5 counterexample: with 101 entries younger than the TTL the
cleanup sorts and halves the set, evicting the oldest entry `"tgt"`
even though it is younger than 10 s — so `should_broadcast` returns
`true` for `"tgt"` although `"tgt"` IS in the recent-received set of
entries younger than the TTL, refuting the claimed iff. -/
theorem should_broadcast_capacity_eviction :
    (should_broadcast 20000000000 c5state "tgt" true).1 = true ∧
    "tgt" ∈ (ttlFilter 20000000000 c5state.recent_hashes).map Prod.fst := by
  decide

theorem any_fst_eq_mem_map (l : List (String × Nat)) (hash : String) :
    (l.any (fun e => e.1 == hash) = true) ↔ hash ∈ l.map Prod.fst := by
  induction l with
  | nil => simp
  | cons x xs ih =>
    simp only [List.any_cons, Bool.or_eq_true, List.map_cons, List.mem_cons,
      beq_iff_eq, ih]
    constructor
    · rintro (h | h)
      · exact Or.inl h.symm
      · exact Or.inr h
    · rintro (h | h)
      · exact Or.inl h.symm
      · exact Or.inr h

/-- C5 (amended): provided at most `MAX_RECENT_HASHES` entries survive
the TTL filter (so the over-capacity halving does not fire),
`should_broadcast(hash, is_local)` returns `true` iff `is_local` holds,
`hash` differs from the last-broadcast hash, and `hash` is not among
the recent-received entries younger than the 10-second TTL — and when
it returns `true` the last-broadcast hash is updated to `hash`.  (When
more than `MAX_RECENT_HASHES` entries are younger than the TTL, the
set is halved keeping the newest, and evicted hashes no longer
suppress — see the counterexample.) -/
theorem should_broadcast_iff (now : Nat) (m : SyncManager) (hash : String)
    (is_local : Bool)
    (hcap : (ttlFilter now m.recent_hashes).length ≤ MAX_RECENT_HASHES) :
    ((should_broadcast now m hash is_local).1 = true ↔
      (is_local = true ∧ m.local_hash ≠ some hash ∧
        hash ∉ (ttlFilter now m.recent_hashes).map Prod.fst)) ∧
    ((should_broadcast now m hash is_local).1 = true →
      (should_broadcast now m hash is_local).2.local_hash = some hash) := by
  have hcl : cleanup_expired now m =
      ⟨ttlFilter now m.recent_hashes, m.local_hash⟩ := by
    simp only [cleanup_expired]
    rw [if_neg (by omega)]
  rw [should_broadcast]
  simp only [hcl]
  by_cases h1 : (ttlFilter now m.recent_hashes).any (fun e => e.1 == hash)
  · rw [any_fst_eq_mem_map] at h1
    simp [h1, (any_fst_eq_mem_map _ hash).mpr h1]
  · have h1m : hash ∉ (ttlFilter now m.recent_hashes).map Prod.fst := by
      intro hc
      exact h1 ((any_fst_eq_mem_map _ hash).mpr hc)
    rw [Bool.not_eq_true] at h1
    simp only [h1, if_false, Bool.false_eq_true]
    by_cases h2 : m.local_hash == some hash
    · have h2e : m.local_hash = some hash := by simpa using h2
      simp [h2, h2e]
    · have h2e : m.local_hash ≠ some hash := by simpa using h2
      simp only [h2, if_false, Bool.false_eq_true]
      cases is_local with
      | false => simp [h1m, h2e]
      | true => simp [h1m, h2e]

/-- Witness for C5's amended theorem on a small state whose only
recent entry has expired. -/
theorem should_broadcast_iff_witness :
    (ttlFilter 20000000000
        (SyncManager.mk [("a", 0)] none).recent_hashes).length ≤ MAX_RECENT_HASHES ∧
    (((should_broadcast 20000000000 (SyncManager.mk [("a", 0)] none) "b" true).1 = true ↔
        (true = true ∧ (SyncManager.mk [("a", 0)] none).local_hash ≠ some "b" ∧
          "b" ∉ (ttlFilter 20000000000
              (SyncManager.mk [("a", 0)] none).recent_hashes).map Prod.fst)) ∧
      ((should_broadcast 20000000000 (SyncManager.mk [("a", 0)] none) "b" true).1 = true →
        (should_broadcast 20000000000
            (SyncManager.mk [("a", 0)] none) "b" true).2.local_hash = some "b")) :=
  ⟨by decide,
    should_broadcast_iff 20000000000 (SyncManager.mk [("a", 0)] none) "b" true
      (by decide)⟩

/-! ## `commands.rs`: `set_clipboard` and `share_clipboard_content` (C7)

`content` is the UTF-8 byte sequence (`content.len()` in Rust is the
byte length).  The OS clipboard writer, the SHA-256 hex digest, fresh
UUIDs and nonces are external effects passed in explicitly. -/

/-- `set_clipboard` from `commands.rs`: it simply forwards to the OS
clipboard writer (`writeText content` returns `none` on success or the
error string), mapping failure to `Clipboard`.  There is no size
check in this command. -/
def set_clipboard (writeText : List Nat → Option String)
    (content : List Nat) : Except DecentPasteError Unit :=
  match writeText content with
  | none => .ok ()
  | some e => .error (.Clipboard e)

def MAX_CLIPBOARD_SIZE : Nat := 1024 * 1024

/-- The external collaborators and shared state read by
`share_clipboard_content`. -/
structure ShareEnv where
  device_identity : Option DeviceIdentity
  paired_peers : List PairedPeer
  tx_present : Bool
  nonces : Nat → List Nat
  fresh_ids : Nat → String
  entry_id : String
  hashContent : List Nat → String
  now : Int

/-- The per-peer encrypt-and-send loop of `share_clipboard_content`:
returns the list of messages handed to the network channel (one per
paired peer when the channel is present, none otherwise); an
encryption failure aborts the command. -/
def shareLoop (env : ShareEnv) (identity : DeviceIdentity)
    (content : List Nat) (content_hash : String) :
    Nat → List PairedPeer → Except DecentPasteError (List ClipboardMessage)
  | _, [] => .ok []
  | i, peer :: rest =>
    match encrypt_content content peer.shared_secret (env.nonces i) with
    | .error e => .error e
    | .ok encrypted =>
      match shareLoop env identity content content_hash (i + 1) rest with
      | .error e => .error e
      | .ok sent =>
        if env.tx_present then
          .ok (⟨env.fresh_ids i, content_hash, encrypted, env.now,
            identity.device_id, identity.device_name⟩ :: sent)
        else .ok sent

/-- The command's observable outcome: the broadcast messages and the
history entry inserted (`ClipboardEntry::new_local`). -/
structure ShareOutput where
  broadcasts : List ClipboardMessage
  entry : ClipboardEntry
  deriving DecidableEq, Repr

/-- `share_clipboard_content` from `commands.rs`: reject content over
1 MiB with `InvalidInput`; require a device identity and at least one
paired peer; encrypt per peer and broadcast; fail with `ChannelSend`
if nothing could be handed to the network channel; then build the
local history entry. -/
def share_clipboard_content (env : ShareEnv) (content : List Nat) :
    Except DecentPasteError ShareOutput :=
  if content.length > MAX_CLIPBOARD_SIZE then
    .error (.InvalidInput "Clipboard content too large (max 1MB)")
  else
    let content_hash := env.hashContent content
    match env.device_identity with
    | none => .error .NotInitialized
    | some identity =>
      if env.paired_peers.isEmpty then .error (.Pairing "No paired peers")
      else
        match shareLoop env identity content content_hash 0 env.paired_peers with
        | .error e => .error e
        | .ok sent =>
          if sent.length = 0 then .error .ChannelSend
          else
            .ok ⟨sent, ⟨env.entry_id, content, content_hash, env.now,
              identity.device_id, identity.device_name, true⟩⟩

/-- C7 counterexample: `set_clipboard` performs no size check — with a
successfully writing OS clipboard it accepts 1 MiB + 1 byte and
returns `ok`, instead of the claimed `InvalidInput` failure. -/
theorem set_clipboard_accepts_oversized :
    set_clipboard (fun _ => none) (List.replicate (1024 * 1024 + 1) 0) = .ok () :=
  rfl

theorem shareLoop_error_is_encryption (env : ShareEnv)
    (identity : DeviceIdentity) (content : List Nat) (content_hash : String) :
    ∀ (i : Nat) (peers : List PairedPeer) (e : DecentPasteError),
      shareLoop env identity content content_hash i peers = .error e →
      ∃ s, e = .Encryption s := by
  intro i peers
  induction peers generalizing i with
  | nil => intro e he; simp [shareLoop] at he
  | cons peer rest ih =>
    intro e he
    rw [shareLoop] at he
    cases henc : encrypt_content content peer.shared_secret (env.nonces i) with
    | error e2 =>
      rw [henc] at he
      have he2 : e2 = e := by
        simpa using he
      rw [encrypt_content] at henc
      by_cases hk : peer.shared_secret.length ≠ 32
      · rw [if_pos hk] at henc
        have hinj : DecentPasteError.Encryption "Shared secret must be 32 bytes" = e2 := by
          simpa using henc
        exact ⟨"Shared secret must be 32 bytes", by rw [← he2, ← hinj]⟩
      · rw [if_neg hk] at henc
        cases henc
    | ok encrypted =>
      rw [henc] at he
      cases hrest : shareLoop env identity content content_hash (i + 1) rest with
      | error e2 =>
        rw [hrest] at he
        have he2 : e2 = e := by simpa using he
        exact he2 ▸ ih (i + 1) e2 hrest
      | ok sent =>
        rw [hrest] at he
        by_cases htx : env.tx_present
        · simp [htx] at he
        · simp [htx] at he

theorem shareLoop_ok_all_sent (env : ShareEnv) (identity : DeviceIdentity)
    (content : List Nat) (content_hash : String) (htx : env.tx_present = true) :
    ∀ (i : Nat) (peers : List PairedPeer),
      (∀ p ∈ peers, p.shared_secret.length = 32) →
      ∃ sent, shareLoop env identity content content_hash i peers = .ok sent ∧
        sent.length = peers.length := by
  intro i peers
  induction peers generalizing i with
  | nil => intro _; exact ⟨[], rfl, rfl⟩
  | cons peer rest ih =>
    intro hsec
    obtain ⟨sent, hs, hl⟩ := ih (i + 1) (fun p hp => hsec p (List.mem_cons_of_mem peer hp))
    have hk : peer.shared_secret.length = 32 := hsec peer (List.mem_cons_self peer rest)
    refine ⟨⟨env.fresh_ids i, content_hash,
        env.nonces i ++ gcmEncrypt peer.shared_secret (env.nonces i) content,
        env.now, identity.device_id, identity.device_name⟩ :: sent, ?_, by simp [hl]⟩
    rw [shareLoop, encrypt_content, if_neg (by omega), hs]
    simp [htx]

/-- C7 (amended): `share_clipboard_content` fails with `InvalidInput`
whenever the content exceeds 1,048,576 bytes (nothing is broadcast and
no history entry is produced, since the command aborts before either),
never reports `InvalidInput` for content within the limit, and with
content of exactly 1,048,576 bytes succeeds when a device identity, at
least one paired peer with a 32-byte secret, and the network channel
are present.  `set_clipboard`, by contrast, performs NO size check: it
never returns `InvalidInput` for any content of any size. -/
theorem share_clipboard_size_boundary (env : ShareEnv) (content : List Nat) :
    (content.length > MAX_CLIPBOARD_SIZE →
      share_clipboard_content env content =
        .error (.InvalidInput "Clipboard content too large (max 1MB)")) ∧
    (content.length ≤ MAX_CLIPBOARD_SIZE →
      ∀ s, share_clipboard_content env content ≠ .error (.InvalidInput s)) ∧
    (content.length ≤ MAX_CLIPBOARD_SIZE →
      ∀ identity, env.device_identity = some identity →
      env.paired_peers ≠ [] →
      (∀ p ∈ env.paired_peers, p.shared_secret.length = 32) →
      env.tx_present = true →
      ∃ out, share_clipboard_content env content = .ok out) ∧
    (∀ (writeText : List Nat → Option String) (c : List Nat) (s : String),
      set_clipboard writeText c ≠ .error (.InvalidInput s)) := by
  refine ⟨?_, ?_, ?_, ?_⟩
  · intro hover
    rw [share_clipboard_content, if_pos hover]
  · intro hle s
    rw [share_clipboard_content, if_neg (by omega)]
    cases hid : env.device_identity with
    | none => simp
    | some identity =>
      by_cases hempty : env.paired_peers.isEmpty
      · simp [hempty]
      · simp only [hempty, if_false, Bool.false_eq_true]
        cases hloop : shareLoop env identity content (env.hashContent content)
            0 env.paired_peers with
        | error e =>
          obtain ⟨s2, hs2⟩ := shareLoop_error_is_encryption env identity content
            (env.hashContent content) 0 env.paired_peers e hloop
          simp [hs2]
        | ok sent =>
          by_cases hz : sent.length = 0
          · simp [hz]
          · simp [hz]
  · intro hle identity hid hne hsec htx
    obtain ⟨sent, hs, hl⟩ := shareLoop_ok_all_sent env identity content
      (env.hashContent content) htx 0 env.paired_peers hsec
    have hz : ¬ sent.length = 0 := by
      rw [hl]
      intro hc
      exact hne (List.eq_nil_of_length_eq_zero hc)
    refine ⟨⟨sent, ⟨env.entry_id, content, env.hashContent content, env.now,
      identity.device_id, identity.device_name, true⟩⟩, ?_⟩
    simp only [share_clipboard_content, hid]
    rw [if_neg (by omega)]
    rw [if_neg (by simpa [List.isEmpty_iff] using hne)]
    simp only [hs]
    rw [if_neg hz]
  · intro writeText c s
    rw [set_clipboard]
    cases writeText c with
    | none => simp
    | some e => simp

def c7peer : PairedPeer := ⟨"p1", "peer", List.replicate 32 0, 0, none, []⟩
def c7identity : DeviceIdentity := ⟨"dev", "me", List.replicate 32 2, none, 0⟩
def c7env : ShareEnv :=
  ⟨some c7identity, [c7peer], true, fun _ => List.replicate 12 0,
    fun _ => "mid", "eid", fun _ => "h", 0⟩

/-- Witness for C7's amended theorem at the 1 MiB boundary. -/
theorem share_clipboard_size_boundary_witness :
    ((List.replicate (1024 * 1024 + 1) 0).length > MAX_CLIPBOARD_SIZE ∧
      share_clipboard_content c7env (List.replicate (1024 * 1024 + 1) 0) =
        .error (.InvalidInput "Clipboard content too large (max 1MB)")) ∧
    ((List.replicate (1024 * 1024) 0).length ≤ MAX_CLIPBOARD_SIZE ∧
      ∃ out, share_clipboard_content c7env (List.replicate (1024 * 1024) 0) = .ok out) := by
  have hover : (List.replicate (1024 * 1024 + 1) 0).length > MAX_CLIPBOARD_SIZE := by
    rw [List.length_replicate, MAX_CLIPBOARD_SIZE]
    omega
  have hle : (List.replicate (1024 * 1024) 0).length ≤ MAX_CLIPBOARD_SIZE := by
    rw [List.length_replicate, MAX_CLIPBOARD_SIZE]
  refine ⟨⟨hover, (share_clipboard_size_boundary c7env _).1 hover⟩,
    ⟨hle, (share_clipboard_size_boundary c7env _).2.2.1 hle c7identity rfl
      (by simp [c7env]) ?_ rfl⟩⟩
  intro p hp
  have : p = c7peer := by simpa [c7env] using hp
  rw [this, c7peer]
  simp

/-! ## `network/swarm.rs`: the `BroadcastClipboard` command arm (C8) -/

/-- Modelled from the spec: `publish_clipboard` lives in
`network/behaviour.rs`, which is not part of the source snapshot (only
its caller in `swarm.rs` is).  Per the spec's overlay contract,
publishing a clipboard message on the gossip topic succeeds even when
0 peers are currently subscribed (the message is still buffered for
resync), so publication is total and returns the published message. -/
def publish_clipboard (message : ClipboardMessage) :
    Except String ClipboardMessage :=
  .ok message

/-- The `ClipboardSent { id, peer_count }` network event. -/
structure ClipboardSentEvent where
  id : String
  peer_count : Nat
  deriving DecidableEq, Repr

/-- Observable effects of one `BroadcastClipboard` command. -/
structure BroadcastEffects where
  published : List ClipboardMessage
  events : List ClipboardSentEvent
  deriving DecidableEq, Repr

/-- The `NetworkCommand::BroadcastClipboard` arm of
`NetworkManager::handle_command`: publish on gossip and, on success,
emit `ClipboardSent` with the current TCP-connected peer count; on a
publish error, warn and emit nothing. -/
def handle_broadcast_clipboard (connected_peers : List String)
    (message : ClipboardMessage) : BroadcastEffects :=
  match publish_clipboard message with
  | .ok _ => ⟨[message], [⟨message.id, connected_peers.length⟩]⟩
  | .error _ => ⟨[], []⟩

/-- C8: every `BroadcastClipboard { message }` command publishes the
message on the gossip clipboard topic and emits
`ClipboardSent { id, peer_count }` — in particular with
`peer_count = 0` when no peers are connected or subscribed. -/
theorem broadcast_clipboard_publishes_and_emits
    (connected_peers : List String) (message : ClipboardMessage) :
    handle_broadcast_clipboard connected_peers message =
      ⟨[message], [⟨message.id, connected_peers.length⟩]⟩ ∧
    handle_broadcast_clipboard [] message =
      ⟨[message], [⟨message.id, 0⟩]⟩ :=
  ⟨rfl, rfl⟩

/-! ## `lib.rs`: the `NetworkEvent::PairingComplete` handler (C1, C10) -/

/-- Frontend events emitted by the handler. -/
inductive UiEvent where
  | pairingFailed : String → String → UiEvent
  | pairingComplete : String → String → String → UiEvent
  deriving DecidableEq, Repr

/-- The slice of `AppState` read and written by the handler. -/
structure AppStateModel where
  pairing_sessions : List PairingSession
  device_identity : Option DeviceIdentity
  paired_peers : List PairedPeer
  discovered_peers : List DiscoveredPeer
  deriving DecidableEq, Repr

structure PairingCompleteResult where
  state : AppStateModel
  events : List UiEvent
  flushed_paired_peers : Bool
  deriving DecidableEq, Repr

/-- `sessions.iter_mut().find(..)` followed by a state assignment:
update the first session with the given id. -/
def setSessionState (sid : String) (newState : PairingState) :
    List PairingSession → List PairingSession
  | [] => []
  | s :: rest =>
    if s.session_id == sid then { s with state := newState } :: rest
    else s :: setSessionState sid newState rest

def findSession (sessions : List PairingSession) (sid : String) :
    Option PairingSession :=
  sessions.find? (fun s => s.session_id == sid)

/-- The responder's independent ECDH derivation and MITM check
(`lib.rs` lines 834-917).  On a mismatch the session is failed with
`"Key verification failed"` and a `pairing-failed` event is emitted;
every `.error` outcome aborts the handler before any paired-peer
mutation. -/
def responder_shared_secret (st1 : AppStateModel) (session_id : String)
    (peer_public_key : Option (List Nat)) (received_secret : List Nat) :
    Except (UiEvent × AppStateModel) (List Nat) :=
  match peer_public_key with
  | none => .error (UiEvent.pairingFailed session_id "Peer public key missing", st1)
  | some pk =>
    match st1.device_identity with
    | none => .error (UiEvent.pairingFailed session_id "Device identity not found", st1)
    | some identity =>
      match identity.private_key with
      | none => .error (UiEvent.pairingFailed session_id "Device identity incomplete", st1)
      | some priv =>
        match derive_shared_secret priv pk with
        | .error _ =>
          .error (UiEvent.pairingFailed session_id "Failed to derive shared secret", st1)
        | .ok derived =>
          if derived ≠ received_secret then
            .error (UiEvent.pairingFailed session_id
                "Key verification failed - secrets don't match",
              { st1 with pairing_sessions :=
                  (setSessionState session_id (.Failed "Key verification failed")
                      st1.pairing_sessions) })
          else .ok derived

/-- The tail of the handler after a secret is settled (`lib.rs`
lines 919-974): resolve addresses, insert the `PairedPeer` only when
no entry with that `peer_id` exists, flush only on a fresh insertion,
drop the peer from the discovered list, emit `pairing-complete`. -/
def complete_pairing_success (st1 : AppStateModel)
    (session_id peer_id final_device_name : String)
    (session_peer_addresses : List String) (shared_secret : List Nat)
    (now : Int) : PairingCompleteResult :=
  let last_known_addresses :=
    if session_peer_addresses.isEmpty then
      ((st1.discovered_peers.find? (fun p => p.peer_id == peer_id)).map
        DiscoveredPeer.addresses).getD []
    else session_peer_addresses
  let paired_peer : PairedPeer :=
    ⟨peer_id, final_device_name, shared_secret, now, some now, last_known_addresses⟩
  let already := st1.paired_peers.any (fun p => p.peer_id == peer_id)
  let st2 := if already then st1
    else { st1 with paired_peers := st1.paired_peers ++ [paired_peer] }
  let st3 := { st2 with
    discovered_peers := st2.discovered_peers.filter (fun p => p.peer_id != peer_id) }
  ⟨st3, [UiEvent.pairingComplete session_id peer_id final_device_name], !already⟩

/-- The `NetworkEvent::PairingComplete` handler from `lib.rs`. -/
def handle_pairing_complete (now : Int) (st : AppStateModel)
    (session_id peer_id device_name : String) (received_secret : List Nat) :
    PairingCompleteResult :=
  let found := findSession st.pairing_sessions session_id
  let sessions1 :=
    match found with
    | some _ => setSessionState session_id .Completed st.pairing_sessions
    | none => st.pairing_sessions
  let final_device_name :=
    match found with
    | some s => s.peer_name.getD
        (if device_name == "Unknown" then "Unknown Device" else device_name)
    | none => device_name
  let peer_public_key :=
    match found with
    | some s => s.peer_public_key
    | none => none
  let session_peer_addresses :=
    match found with
    | some s => s.peer_addresses
    | none => []
  let is_responder :=
    match found with
    | some s => !s.is_initiator
    | none => false
  let st1 := { st with pairing_sessions := sessions1 }
  match (if is_responder then
      responder_shared_secret st1 session_id peer_public_key received_secret
    else .ok received_secret) with
  | .error (ev, st2) => ⟨st2, [ev], false⟩
  | .ok shared_secret =>
    complete_pairing_success st1 session_id peer_id final_device_name
      session_peer_addresses shared_secret now

theorem findSession_setSessionState (sid : String) (newState : PairingState)
    (l : List PairingSession) :
    findSession (setSessionState sid newState l) sid =
      (findSession l sid).map (fun s => { s with state := newState }) := by
  induction l with
  | nil => rfl
  | cons s rest ih =>
    by_cases hs : s.session_id == sid
    · simp [findSession, setSessionState, hs, List.find?_cons]
    · have hs2 : (s.session_id == sid) = false := by simpa using hs
      have h1 : setSessionState sid newState (s :: rest)
          = s :: setSessionState sid newState rest := by
        simp [setSessionState, hs2]
      rw [h1]
      simp only [findSession, List.find?_cons] at ih ⊢
      simp only [hs2, cond_false]
      exact ih

/-- C1: when the responder handles the initiator's `PairingComplete`
carrying a received shared secret, it derives the ECDH secret from its
own private key and the initiator's public key; if the derived value
differs from the received one, the session transitions to
`Failed "Key verification failed"`, a `pairing-failed` event is
emitted, and `paired_peers` is left unchanged with no flush (no
`PairedPeer` is persisted). -/
theorem pairing_complete_mismatch_fails_and_preserves
    (now : Int) (st : AppStateModel) (session_id peer_id device_name : String)
    (received_secret : List Nat) (s : PairingSession) (pk priv derived : List Nat)
    (identity : DeviceIdentity)
    (hfind : findSession st.pairing_sessions session_id = some s)
    (hresp : s.is_initiator = false)
    (hpk : s.peer_public_key = some pk)
    (hid : st.device_identity = some identity)
    (hpriv : identity.private_key = some priv)
    (hder : derive_shared_secret priv pk = .ok derived)
    (hne : derived ≠ received_secret) :
    (handle_pairing_complete now st session_id peer_id device_name
        received_secret).state.paired_peers = st.paired_peers ∧
    (handle_pairing_complete now st session_id peer_id device_name
        received_secret).flushed_paired_peers = false ∧
    findSession (handle_pairing_complete now st session_id peer_id device_name
        received_secret).state.pairing_sessions session_id =
      some { s with state := .Failed "Key verification failed" } ∧
    (handle_pairing_complete now st session_id peer_id device_name
        received_secret).events =
      [UiEvent.pairingFailed session_id
        "Key verification failed - secrets don't match"] := by
  have hstep : handle_pairing_complete now st session_id peer_id device_name
      received_secret =
      ⟨{ st with pairing_sessions :=
          (setSessionState session_id (.Failed "Key verification failed")
            (setSessionState session_id .Completed st.pairing_sessions)) },
        [UiEvent.pairingFailed session_id
          "Key verification failed - secrets don't match"], false⟩ := by
    simp only [handle_pairing_complete, hfind, responder_shared_secret, hresp,
      Bool.not_false, if_true, hpk, hid, hpriv, hder, hne, ne_eq,
      not_false_eq_true]
  refine ⟨by rw [hstep], by rw [hstep], ?_, by rw [hstep]⟩
  rw [hstep]
  show findSession (setSessionState session_id (.Failed "Key verification failed")
      (setSessionState session_id .Completed st.pairing_sessions)) session_id = _
  rw [findSession_setSessionState, findSession_setSessionState, hfind]
  rfl

def c1pub : List Nat := 9 :: List.replicate 31 0
def c1priv : List Nat := List.replicate 32 1
def c1identity : DeviceIdentity := ⟨"dev", "me", List.replicate 32 2, some c1priv, 0⟩
def c1session : PairingSession :=
  ⟨"sid", "peer1", none, some c1pub, [], none, .AwaitingPeerConfirmation, false, 0⟩
def c1state : AppStateModel := ⟨[c1session], some c1identity, [], []⟩
def c1received : List Nat := List.replicate 33 0

/-- Witness for C1: a concrete responder session whose independently
derived X25519 secret cannot equal the received value. -/
theorem pairing_complete_mismatch_witness :
    findSession c1state.pairing_sessions "sid" = some c1session ∧
    derive_shared_secret c1priv c1pub = .ok (x25519 c1priv c1pub) ∧
    x25519 c1priv c1pub ≠ c1received ∧
    ((handle_pairing_complete 0 c1state "sid" "peer1" "PeerOne"
        c1received).state.paired_peers = c1state.paired_peers ∧
      (handle_pairing_complete 0 c1state "sid" "peer1" "PeerOne"
        c1received).flushed_paired_peers = false ∧
      findSession (handle_pairing_complete 0 c1state "sid" "peer1" "PeerOne"
          c1received).state.pairing_sessions "sid" =
        some { c1session with state := .Failed "Key verification failed" } ∧
      (handle_pairing_complete 0 c1state "sid" "peer1" "PeerOne"
          c1received).events =
        [UiEvent.pairingFailed "sid"
          "Key verification failed - secrets don't match"]) := by
  have hfind : findSession c1state.pairing_sessions "sid" = some c1session := by
    simp [findSession, c1state, c1session]
  have hder : derive_shared_secret c1priv c1pub = .ok (x25519 c1priv c1pub) := by
    rw [derive_shared_secret, if_neg (by simp [c1priv]), if_neg (by simp [c1pub])]
  have hne : x25519 c1priv c1pub ≠ c1received := by
    intro h
    have hlen := congrArg List.length h
    rw [x25519_length] at hlen
    simp [c1received] at hlen
  exact ⟨hfind, hder, hne,
    pairing_complete_mismatch_fails_and_preserves 0 c1state "sid" "peer1"
      "PeerOne" c1received c1session c1pub c1priv (x25519 c1priv c1pub)
      c1identity hfind rfl rfl rfl rfl hder hne⟩

theorem responder_shared_secret_error_paired (st1 : AppStateModel) (sid : String)
    (pk : Option (List Nat)) (recv : List Nat) (ev : UiEvent) (st2 : AppStateModel)
    (h : responder_shared_secret st1 sid pk recv = .error (ev, st2)) :
    st2.paired_peers = st1.paired_peers := by
  cases pk with
  | none =>
    simp only [responder_shared_secret] at h
    cases h; rfl
  | some pkv =>
    cases hid : st1.device_identity with
    | none =>
      simp only [responder_shared_secret, hid] at h
      cases h; rfl
    | some identity =>
      cases hpriv : identity.private_key with
      | none =>
        simp only [responder_shared_secret, hid, hpriv] at h
        cases h; rfl
      | some priv =>
        cases hder : derive_shared_secret priv pkv with
        | error e =>
          simp only [responder_shared_secret, hid, hpriv, hder] at h
          cases h; rfl
        | ok derived =>
          by_cases hne : derived ≠ recv
          · simp only [responder_shared_secret, hid, hpriv, hder, if_pos hne] at h
            cases h; rfl
          · simp only [responder_shared_secret, hid, hpriv, hder, if_neg hne] at h
            cases h

theorem complete_pairing_success_paired_cases (st1 : AppStateModel)
    (sid pid fname : String) (addrs : List String) (secret : List Nat)
    (now : Int) :
    (st1.paired_peers.any (fun p => p.peer_id == pid) = true ∧
      (complete_pairing_success st1 sid pid fname addrs secret
          now).state.paired_peers = st1.paired_peers ∧
      (complete_pairing_success st1 sid pid fname addrs secret
          now).flushed_paired_peers = false) ∨
    (st1.paired_peers.any (fun p => p.peer_id == pid) = false ∧
      (∃ pp : PairedPeer, pp.peer_id = pid ∧
        (complete_pairing_success st1 sid pid fname addrs secret
            now).state.paired_peers = st1.paired_peers ++ [pp]) ∧
      (complete_pairing_success st1 sid pid fname addrs secret
          now).flushed_paired_peers = true) := by
  by_cases hal : st1.paired_peers.any (fun p => p.peer_id == pid) = true
  · left
    refine ⟨hal, ?_, ?_⟩
    · simp only [complete_pairing_success, hal, if_true]
    · simp only [complete_pairing_success, hal, if_true, Bool.not_true]
  · right
    have hal2 : st1.paired_peers.any (fun p => p.peer_id == pid) = false := by
      simpa using hal
    refine ⟨hal2, ⟨⟨pid, fname, secret, now, some now,
      (if addrs.isEmpty then
        ((st1.discovered_peers.find? (fun p => p.peer_id == pid)).map
          DiscoveredPeer.addresses).getD []
      else addrs)⟩, rfl, ?_⟩, ?_⟩
    · simp only [complete_pairing_success, hal2, if_false, Bool.false_eq_true]
    · simp only [complete_pairing_success, hal2, if_false, Bool.not_false,
        Bool.false_eq_true]

theorem any_peer_id_eq_false (l : List PairedPeer) (pid : String)
    (h : l.any (fun p => p.peer_id == pid) = false) :
    pid ∉ l.map PairedPeer.peer_id := by
  intro hc
  rw [List.any_eq_false] at h
  rcases List.mem_map.mp hc with ⟨p, hp, hpid⟩
  exact h p hp (by simp [hpid])

theorem handle_pairing_complete_paired_cases (now : Int) (st : AppStateModel)
    (sid pid dname : String) (recv : List Nat) :
    ((handle_pairing_complete now st sid pid dname recv).state.paired_peers
        = st.paired_peers ∧
      (handle_pairing_complete now st sid pid dname
          recv).flushed_paired_peers = false) ∨
    (st.paired_peers.any (fun p => p.peer_id == pid) = false ∧
      (∃ pp : PairedPeer, pp.peer_id = pid ∧
        (handle_pairing_complete now st sid pid dname recv).state.paired_peers
          = st.paired_peers ++ [pp]) ∧
      (handle_pairing_complete now st sid pid dname
          recv).flushed_paired_peers = true) := by
  cases hf : findSession st.pairing_sessions sid with
  | none =>
    have hstep : handle_pairing_complete now st sid pid dname recv
        = complete_pairing_success { st with pairing_sessions := st.pairing_sessions }
            sid pid dname [] recv now := by
      simp only [handle_pairing_complete, hf, Bool.false_eq_true, if_false]
    rcases complete_pairing_success_paired_cases
        { st with pairing_sessions := st.pairing_sessions } sid pid dname [] recv now with
      ⟨_, h2, h3⟩ | ⟨h1, ⟨pp, hpp, h2⟩, h3⟩
    · left
      rw [hstep]
      exact ⟨h2, h3⟩
    · right
      rw [hstep]
      exact ⟨h1, ⟨pp, hpp, h2⟩, h3⟩
  | some s =>
    cases hini : s.is_initiator with
    | true =>
      have hstep : handle_pairing_complete now st sid pid dname recv
          = complete_pairing_success
              { st with pairing_sessions :=
                  setSessionState sid .Completed st.pairing_sessions }
              sid pid
              (s.peer_name.getD
                (if dname == "Unknown" then "Unknown Device" else dname))
              s.peer_addresses recv now := by
        simp only [handle_pairing_complete, hf, hini, Bool.not_true, if_false,
          Bool.false_eq_true]
      rcases complete_pairing_success_paired_cases
          { st with pairing_sessions :=
              setSessionState sid .Completed st.pairing_sessions }
          sid pid
          (s.peer_name.getD (if dname == "Unknown" then "Unknown Device" else dname))
          s.peer_addresses recv now with
        ⟨_, h2, h3⟩ | ⟨h1, ⟨pp, hpp, h2⟩, h3⟩
      · left
        rw [hstep]
        exact ⟨h2, h3⟩
      · right
        rw [hstep]
        exact ⟨h1, ⟨pp, hpp, h2⟩, h3⟩
    | false =>
      cases hsec : responder_shared_secret
          { st with pairing_sessions :=
              setSessionState sid .Completed st.pairing_sessions }
          sid s.peer_public_key recv with
      | error p =>
        obtain ⟨ev, st2⟩ := p
        have hstep : handle_pairing_complete now st sid pid dname recv
            = ⟨st2, [ev], false⟩ := by
          simp only [handle_pairing_complete, hf, hini, Bool.not_false, if_true,
            hsec]
        left
        rw [hstep]
        exact ⟨responder_shared_secret_error_paired
          { st with pairing_sessions :=
              setSessionState sid .Completed st.pairing_sessions }
          sid s.peer_public_key recv ev st2 hsec, rfl⟩
      | ok secret =>
        have hstep : handle_pairing_complete now st sid pid dname recv
            = complete_pairing_success
                { st with pairing_sessions :=
                    setSessionState sid .Completed st.pairing_sessions }
                sid pid
                (s.peer_name.getD
                  (if dname == "Unknown" then "Unknown Device" else dname))
                s.peer_addresses secret now := by
          simp only [handle_pairing_complete, hf, hini, Bool.not_false, if_true,
            hsec]
        rcases complete_pairing_success_paired_cases
            { st with pairing_sessions :=
                setSessionState sid .Completed st.pairing_sessions }
            sid pid
            (s.peer_name.getD (if dname == "Unknown" then "Unknown Device" else dname))
            s.peer_addresses secret now with
          ⟨_, h2, h3⟩ | ⟨h1, ⟨pp, hpp, h2⟩, h3⟩
        · left
          rw [hstep]
          exact ⟨h2, h3⟩
        · right
          rw [hstep]
          exact ⟨h1, ⟨pp, hpp, h2⟩, h3⟩

/-- C10: handling `PairingComplete` never introduces a duplicate
`peer_id` in `paired_peers`: when the list's ids are pairwise distinct
they remain so, and when an entry with the event's `peer_id` already
exists the list (including its stored `shared_secret`) is left
unchanged and no flush for that addition occurs. -/
theorem paired_peers_unique_on_pairing_complete (now : Int)
    (st : AppStateModel) (sid pid dname : String) (recv : List Nat)
    (hnodup : (st.paired_peers.map PairedPeer.peer_id).Nodup) :
    (((handle_pairing_complete now st sid pid dname
        recv).state.paired_peers.map PairedPeer.peer_id).Nodup) ∧
    (st.paired_peers.any (fun p => p.peer_id == pid) = true →
      (handle_pairing_complete now st sid pid dname recv).state.paired_peers
          = st.paired_peers ∧
      (handle_pairing_complete now st sid pid dname
          recv).flushed_paired_peers = false) := by
  rcases handle_pairing_complete_paired_cases now st sid pid dname recv with
    ⟨h1, h2⟩ | ⟨h1, ⟨pp, hpp, h2⟩, h3⟩
  · exact ⟨h1 ▸ hnodup, fun _ => ⟨h1, h2⟩⟩
  · constructor
    · rw [h2, List.map_append]
      refine List.Nodup.append hnodup (by simp) ?_
      intro a ha hb
      simp only [List.map_cons, List.map_nil, List.mem_singleton] at hb
      rw [hb, hpp] at ha
      exact any_peer_id_eq_false st.paired_peers pid h1 ha
    · intro hany
      rw [hany] at h1
      simp at h1

def c10peer : PairedPeer := ⟨"peer1", "p", List.replicate 32 3, 0, none, []⟩
def c10state : AppStateModel := ⟨[], none, [c10peer], []⟩

/-- Witness for C10 on a state that already holds a peer with the
event's `peer_id`. -/
theorem paired_peers_unique_witness :
    ((c10state.paired_peers.map PairedPeer.peer_id).Nodup) ∧
    ((((handle_pairing_complete 0 c10state "nosession" "peer1" "p"
        (List.replicate 32 4)).state.paired_peers.map PairedPeer.peer_id).Nodup) ∧
      (c10state.paired_peers.any (fun p => p.peer_id == "peer1") = true →
        (handle_pairing_complete 0 c10state "nosession" "peer1" "p"
            (List.replicate 32 4)).state.paired_peers = c10state.paired_peers ∧
        (handle_pairing_complete 0 c10state "nosession" "peer1" "p"
            (List.replicate 32 4)).flushed_paired_peers = false)) :=
  ⟨by simp [c10state, c10peer],
    paired_peers_unique_on_pairing_complete 0 c10state "nosession" "peer1" "p"
      (List.replicate 32 4) (by simp [c10state, c10peer])⟩
